import Mathlib

/-!
Verification development for the Spider-Web forum search engine
(`Backend/services/search.py`).

The Python service is shallowly embedded: the relational store is a value of
type `DB` (lists of rows), SQL `ILIKE` is an executable pattern matcher,
SQL `SELECT`/`JOIN`/`ORDER BY`/`LIMIT` are list comprehensions, stable sorts
and `take`, and Python `float` scores are modelled exactly by `Flt`,
an unnormalized fraction with positive denominator (the scores the code
manipulates are small decimal constants and ratios of list indices, for which
exact rational arithmetic is the intended idealization of IEEE arithmetic).
Python exceptions are modelled with `Except`.
-/

namespace SpiderWeb

/-- Exact model of a Python `float` score: an unnormalized fraction with a
positive denominator.  Arithmetic never normalizes, so every operation is
kernel-computable.  Order comparisons cross-multiply. -/
structure Flt where
  num : Int
  den : Int
  den_pos : 0 < den

theorem Flt.eq_iff {a b : Flt} : a = b ↔ a.num = b.num ∧ a.den = b.den := by
  constructor
  · intro h; rw [h]; exact ⟨rfl, rfl⟩
  · intro h
    cases a with
    | mk an ad ah =>
      cases b with
      | mk bn bd bh =>
        simp only at h
        cases h.1
        cases h.2
        rfl

instance : DecidableEq Flt := fun a b =>
  decidable_of_iff (a.num = b.num ∧ a.den = b.den) Flt.eq_iff.symm

/-- Build a fraction, defaulting to denominator 1 if the given one is not
positive (never happens at the call sites in this file). -/
def fl (n d : Int) : Flt :=
  if h : 0 < d then ⟨n, d, h⟩ else ⟨n, 1, Int.one_pos⟩

instance : OfNat Flt n := ⟨⟨Int.ofNat n, 1, Int.one_pos⟩⟩

def Flt.ofNat (n : Nat) : Flt := ⟨Int.ofNat n, 1, Int.one_pos⟩

instance : Add Flt :=
  ⟨fun a b => ⟨a.num * b.den + b.num * a.den, a.den * b.den, Int.mul_pos a.den_pos b.den_pos⟩⟩

instance : Sub Flt :=
  ⟨fun a b => ⟨a.num * b.den - b.num * a.den, a.den * b.den, Int.mul_pos a.den_pos b.den_pos⟩⟩

instance : Mul Flt :=
  ⟨fun a b => ⟨a.num * b.num, a.den * b.den, Int.mul_pos a.den_pos b.den_pos⟩⟩

/-- Exact division; the defensive branches for a non-positive divisor are
never exercised by the embedded code (`1 - i/n` only divides by a positive
list length). -/
def Flt.div (a b : Flt) : Flt :=
  if h : 0 < b.num then ⟨a.num * b.den, a.den * b.num, Int.mul_pos a.den_pos h⟩
  else if h' : b.num < 0 then
    ⟨-(a.num * b.den), a.den * (-b.num), Int.mul_pos a.den_pos (by omega)⟩
  else 0

instance : Div Flt := ⟨Flt.div⟩

def Flt.le (a b : Flt) : Prop := a.num * b.den ≤ b.num * a.den

def Flt.lt (a b : Flt) : Prop := a.num * b.den < b.num * a.den

instance : LE Flt := ⟨Flt.le⟩

instance : LT Flt := ⟨Flt.lt⟩

instance : DecidableRel (α := Flt) (· ≤ ·) :=
  fun a b => inferInstanceAs (Decidable (a.num * b.den ≤ b.num * a.den))

instance : DecidableRel (α := Flt) (· < ·) :=
  fun a b => inferInstanceAs (Decidable (a.num * b.den < b.num * a.den))

theorem Flt.le_refl (a : Flt) : a ≤ a := Int.le_refl _

theorem Flt.le_total (a b : Flt) : a ≤ b ∨ b ≤ a := Int.le_total _ _

theorem Flt.not_lt {a b : Flt} : ¬ a < b ↔ b ≤ a := Int.not_lt

theorem Flt.le_trans {a b c : Flt} (h1 : a ≤ b) (h2 : b ≤ c) : a ≤ c := by
  have hb := b.den_pos
  have hab : a.num * b.den * c.den ≤ b.num * a.den * c.den :=
    Int.mul_le_mul_of_nonneg_right h1 (Int.le_of_lt c.den_pos)
  have hbc : b.num * c.den * a.den ≤ c.num * b.den * a.den :=
    Int.mul_le_mul_of_nonneg_right h2 (Int.le_of_lt a.den_pos)
  have : a.num * c.den * b.den ≤ c.num * a.den * b.den := by nlinarith
  exact Int.le_of_mul_le_mul_right this hb

/-- Sort key "descending by the `Flt` field `f`", the relation fed to the
stable sort modelling the Python `sorted(..., reverse=True)`. -/
def descBy {α : Type} (f : α → Flt) : α → α → Prop := fun a b => f b ≤ f a

instance {α : Type} (f : α → Flt) : DecidableRel (descBy f) :=
  fun a b => inferInstanceAs (Decidable (f b ≤ f a))

instance {α : Type} (f : α → Flt) : IsTotal α (descBy f) :=
  ⟨fun a b => (Flt.le_total (f b) (f a)).imp id id⟩

instance {α : Type} (f : α → Flt) : IsTrans α (descBy f) :=
  ⟨fun _ _ _ h1 h2 => Flt.le_trans h2 h1⟩

/-- Sort key "descending by the integer field `f`" (used for
`ORDER BY ... created_at DESC`). -/
def descByInt {α : Type} (f : α → Int) : α → α → Prop := fun a b => f b ≤ f a

instance {α : Type} (f : α → Int) : DecidableRel (descByInt f) :=
  fun a b => inferInstanceAs (Decidable (f b ≤ f a))

instance {α : Type} (f : α → Int) : IsTotal α (descByInt f) :=
  ⟨fun a b => (Int.le_total (f b) (f a)).imp id id⟩

instance {α : Type} (f : α → Int) : IsTrans α (descByInt f) :=
  ⟨fun _ _ _ h1 h2 => Int.le_trans h2 h1⟩

/-! ## The store (external collaborator)

Row types carry exactly the columns the embedded queries read.  The engine
treats the store as read-only; ids are natural numbers, timestamps are
integers (`NOW()` is passed in as a parameter where a query uses it), and an
absent embedding is `none`. -/

structure Post where
  id : Nat
  topic_id : Nat
  user_id : Option Nat
  content : String
  raw : String
  cooked : String
  created_at : Int
  like_count : Nat
  reply_count : Nat
  trust_level : Nat
  content_embedding : Option (List Flt)
deriving DecidableEq

structure Topic where
  id : Nat
  title : String
  slug : String
  category_id : Nat
  created_at : Int
deriving DecidableEq

structure Category where
  id : Nat
  name : String
deriving DecidableEq

structure User where
  id : Nat
  username : String
  name : String
deriving DecidableEq

structure DB where
  posts : List Post
  topics : List Topic
  categories : List Category
  users : List User

/-- The search service: a store handle, the embedding collaborator
(`SentenceTransformer.encode`), and the cosine-distance operator of the store
(pgvector `<=>`), both injected as pure functions. -/
structure Service where
  db : DB
  embed : String → List Flt
  cosDist : List Flt → List Flt → Flt

/-! ## SQL primitives -/

/-- SQL `LIKE`/`ILIKE` pattern matching (case-insensitive): `%` matches any
sequence, `_` any single character, anything else matches itself up to ASCII
case.  Implemented with explicit fuel so that it is structurally recursive
(and hence kernel-computable); `likeFuel` below is always sufficient. -/
def likeMatchF : Nat → List Char → List Char → Bool
  | 0, _, _ => false
  | fuel + 1, p, s =>
    match p, s with
    | [], [] => true
    | [], _ :: _ => false
    | '%' :: ps, s =>
      likeMatchF fuel ps s ||
        (match s with
         | [] => false
         | _ :: s' => likeMatchF fuel ('%' :: ps) s')
    | '_' :: _, [] => false
    | '_' :: ps, _ :: s' => likeMatchF fuel ps s'
    | _ :: _, [] => false
    | c :: ps, c' :: s' => (c.toLower = c'.toLower) && likeMatchF fuel ps s'

def likeMatch (p s : List Char) : Bool :=
  likeMatchF (p.length + s.length + 1) p s

/-- Matching of `column ILIKE` against the pattern percent-q-percent, the
only pattern shape the service builds. -/
def ilikeContains (q s : String) : Bool :=
  likeMatch ('%' :: (q.data ++ ['%'])) s.data

/-- SQL `SELECT DISTINCT`: keep the first occurrence of each selected row. -/
def sqlDistinctAux {α : Type} [DecidableEq α] : List α → List α → List α
  | _, [] => []
  | seen, a :: l =>
    if a ∈ seen then sqlDistinctAux seen l
    else a :: sqlDistinctAux (a :: seen) l

def sqlDistinct {α : Type} [DecidableEq α] (l : List α) : List α :=
  sqlDistinctAux [] l

/-- Embedding of `LEFT JOIN users ON posts.user_id = users.id`: the matching users, or a
single null row when there is none. -/
def leftUsers (db : DB) (uid : Option Nat) : List (Option User) :=
  match db.users.filter (fun u => decide (uid = some u.id)) with
  | [] => [none]
  | us => us.map some

/-- Embedding of `posts JOIN topics ON posts.topic_id = topics.id JOIN categories ON
topics.category_id = categories.id LEFT JOIN users ON posts.user_id =
users.id`, the join every content query in the service performs. -/
def joinedRows (db : DB) : List (Post × Topic × Category × Option User) :=
  db.posts.flatMap fun p =>
    (db.topics.filter (fun t => decide (t.id = p.topic_id))).flatMap fun t =>
      (db.categories.filter (fun c => decide (c.id = t.category_id))).flatMap fun c =>
        (leftUsers db p.user_id).map fun u => (p, t, c, u)

/-! ## `simple_search` -/

/-- The select list of the `simple_search` SQL query (DISTINCT works on these
columns). -/
structure SimpleRow where
  id : Nat
  cooked : String
  raw : String
  created_at : Int
  reply_count : Nat
  topic_id : Nat
  topic_title : String
  topic_slug : String
  category_id : Nat
  category_name : String
  user_id : Option Nat
  username : Option String
  user_name : Option String
deriving DecidableEq

def mkSimpleRow (p : Post) (t : Topic) (c : Category) (u : Option User) : SimpleRow :=
  { id := p.id, cooked := p.cooked, raw := p.raw, created_at := p.created_at,
    reply_count := p.reply_count, topic_id := p.topic_id, topic_title := t.title,
    topic_slug := t.slug, category_id := c.id, category_name := c.name,
    user_id := u.map User.id, username := u.map User.username,
    user_name := u.map User.name }

/-- Embedding of `WHERE posts.cooked ILIKE :query OR posts.raw ILIKE :query OR
topics.title ILIKE :query` with `:query = '%' || q || '%'`. -/
def simpleWhere (q : String) (r : SimpleRow) : Bool :=
  ilikeContains q r.cooked || ilikeContains q r.raw || ilikeContains q r.topic_title

/-- The result dictionaries the service returns for post matches.  Dict keys
that only some strategies set are `Option`-valued (`search_score` and
`search_method` are added later by `comprehensive_search`; `_search_topics`
results carry no `search_type`). -/
structure SResult where
  post_id : Nat
  content : String
  cooked : String
  raw : String
  created_at : Int
  reply_count : Nat
  topic_id : Nat
  topic_title : String
  topic_slug : String
  category_id : Nat
  category_name : String
  user_id : Option Nat
  username : Option String
  user_name : Option String
  search_type : Option String
  search_score : Option Flt
  search_method : Option String
deriving DecidableEq

def formatSimple (r : SimpleRow) : SResult :=
  { post_id := r.id, content := r.cooked, cooked := r.cooked, raw := r.raw,
    created_at := r.created_at, reply_count := r.reply_count,
    topic_id := r.topic_id, topic_title := r.topic_title,
    topic_slug := r.topic_slug, category_id := r.category_id,
    category_name := r.category_name, user_id := r.user_id,
    username := r.username, user_name := r.user_name,
    search_type := some "simple", search_score := none, search_method := none }

/-- Embedding of `SearchService.simple_search`.  Its internal `try/except` swallows store
faults into `[]`; in this embedding the store is a total value, so the
function is total. -/
def simple_search (svc : Service) (q : String) (limit : Nat) : List SResult :=
  let rows := (joinedRows svc.db).map fun (p, t, c, u) => mkSimpleRow p t c u
  let rows := rows.filter (simpleWhere q)
  let rows := sqlDistinct rows
  let rows := rows.insertionSort (descByInt SimpleRow.created_at)
  (rows.take limit).map formatSimple

/-! ## `_search_topics` -/

/-- Select list of `_search_topics` (adds `topics.created_at`). -/
structure TopicRow where
  id : Nat
  cooked : String
  raw : String
  created_at : Int
  reply_count : Nat
  topic_id : Nat
  topic_title : String
  topic_slug : String
  topic_created_at : Int
  category_id : Nat
  category_name : String
  user_id : Option Nat
  username : Option String
  user_name : Option String
deriving DecidableEq

def mkTopicRow (p : Post) (t : Topic) (c : Category) (u : Option User) : TopicRow :=
  { id := p.id, cooked := p.cooked, raw := p.raw, created_at := p.created_at,
    reply_count := p.reply_count, topic_id := p.topic_id, topic_title := t.title,
    topic_slug := t.slug, topic_created_at := t.created_at, category_id := c.id,
    category_name := c.name, user_id := u.map User.id,
    username := u.map User.username, user_name := u.map User.name }

/-- Embedding of `ORDER BY topics.created_at DESC, posts.id`. -/
def topicOrder (a b : TopicRow) : Prop :=
  b.topic_created_at < a.topic_created_at ∨
    (a.topic_created_at = b.topic_created_at ∧ a.id ≤ b.id)

instance : DecidableRel topicOrder :=
  fun a b =>
    inferInstanceAs (Decidable (b.topic_created_at < a.topic_created_at ∨
      (a.topic_created_at = b.topic_created_at ∧ a.id ≤ b.id)))

def formatTopicRow (r : TopicRow) : SResult :=
  { post_id := r.id, content := r.cooked, cooked := r.cooked, raw := r.raw,
    created_at := r.created_at, reply_count := r.reply_count,
    topic_id := r.topic_id, topic_title := r.topic_title,
    topic_slug := r.topic_slug, category_id := r.category_id,
    category_name := r.category_name, user_id := r.user_id,
    username := r.username, user_name := r.user_name,
    search_type := none, search_score := none, search_method := none }

/-- Embedding of `SearchService._search_topics`: title-only match, joined out
to the posts of the topic. -/
def search_topics (svc : Service) (q : String) (limit : Nat) : List SResult :=
  let rows := (joinedRows svc.db).map fun (p, t, c, u) => mkTopicRow p t c u
  let rows := rows.filter fun r => ilikeContains q r.topic_title
  let rows := sqlDistinct rows
  let rows := rows.insertionSort topicOrder
  (rows.take limit).map formatTopicRow

/-! ## `_extract_search_keywords` -/

def stop_words : List String :=
  ["the", "a", "an", "and", "or", "but", "in", "on", "at", "to", "for", "of",
   "with", "by", "how", "what", "when", "where", "why", "is", "are", "was",
   "were", "be", "been", "have", "has", "had", "do", "does", "did", "will",
   "would", "could", "should", "can"]

def techMarkers : List String :=
  ["gpt", "api", "model", "docker", "podman", "ga", "tds", "exam", "assignment"]

/-- Python regex `\w` (restricted to ASCII, like the rest of this model). -/
def isWordChar (c : Char) : Bool := c.isAlphanum || c = '_'

/-- Embedding of the regex findall over word characters (`\b\w+\b`): the
maximal nonempty runs of word
characters.  `cur` accumulates the current run in reverse. -/
def findWordsAux : List Char → List Char → List String
  | cur, [] => if cur.isEmpty then [] else [String.mk cur.reverse]
  | cur, c :: cs =>
    if isWordChar c then findWordsAux (c :: cur) cs
    else if cur.isEmpty then findWordsAux [] cs
    else String.mk cur.reverse :: findWordsAux [] cs

def findWords (l : List Char) : List String := findWordsAux [] l

/-- Python `needle in hay` for strings: substring containment. -/
def chPrefixOf : List Char → List Char → Bool
  | [], _ => true
  | _ :: _, [] => false
  | a :: xs, b :: ys => a = b && chPrefixOf xs ys

def chSubstrOf (n : List Char) : List Char → Bool
  | [] => chPrefixOf n []
  | c :: h' => chPrefixOf n (c :: h') || chSubstrOf n h'

def strContains (hay needle : String) : Bool := chSubstrOf needle.data hay.data

/-- Embedding of `query.lower()` followed by the word regex (lower-casing
character-wise keeps
the model kernel-computable). -/
def lowerWords (q : String) : List String := findWords (q.data.map Char.toLower)

/-- The keyword list before technical-term prioritization. -/
def rawKeywords (q : String) : List String :=
  (lowerWords q).filter fun w => decide (2 < w.length) && !(decide (w ∈ stop_words))

def isTechTerm (w : String) : Bool := techMarkers.any fun t => strContains w t

/-- Embedding of `SearchService._extract_search_keywords`. -/
def extract_search_keywords (q : String) : List String :=
  let keywords := rawKeywords q
  let technical_terms := keywords.filter isTechTerm
  technical_terms ++ keywords.filter fun k => !(decide (k ∈ technical_terms))

/-! ## `_deduplicate_results` -/

/-- Embedding of the dict read `result.get(search_score, 0)`. -/
def scoreD (r : SResult) : Flt := r.search_score.getD 0

/-- One dict assignment `seen_posts[post_id] = result` under the guard
`post_id not in seen_posts or result.get(search_score, 0) >
seen_posts[post_id].get(search_score, 0)`; a Python dict keeps a replaced
key at its original position and appends a fresh key at the end. -/
def updateSeen : List SResult → SResult → List SResult
  | [], r => [r]
  | s :: rest, r =>
    if s.post_id = r.post_id then
      (if scoreD s < scoreD r then r else s) :: rest
    else
      s :: updateSeen rest r

/-- Embedding of `post_id = result.get(post_id) or result.get(id)`: these dicts always
carry `post_id` and never `id`, so the value is falsy exactly when
`post_id == 0`, and such results are skipped by `if post_id:`. -/
def dedupStep (seen : List SResult) (r : SResult) : List SResult :=
  if r.post_id = 0 then seen else updateSeen seen r

/-- Embedding of `SearchService._deduplicate_results`. -/
def deduplicate_results (results : List SResult) : List SResult :=
  results.foldl dedupStep []

/-- The merge step of `comprehensive_search` (line 630): deduplicate the
concatenated candidate lists, sort by `search_score` descending (the Python
`sorted` is stable; `insertionSort` on a total preorder computes the same
stable sort), truncate to `limit`. -/
def merge_results (candidateLists : List (List SResult)) (limit : Nat) : List SResult :=
  ((deduplicate_results candidateLists.flatten).insertionSort (descBy scoreD)).take limit

/-! ## `comprehensive_search` (orchestrator) -/

/-- The sub-search interface that the `try` block of the orchestrator calls through
`self`.  In Python any callee may raise, so each operation is
`Except`-valued; `svcOps` below instantiates it with the concrete (total)
implementations. -/
structure SearchOps where
  simple : String → Nat → Except String (List SResult)
  topics : String → Nat → Except String (List SResult)
  extract : String → Except String (List String)

def svcOps (svc : Service) : SearchOps :=
  { simple := fun q limit => .ok (simple_search svc q limit),
    topics := fun q limit => .ok (search_topics svc q limit),
    extract := fun q => .ok (extract_search_keywords q) }

/-- Embedding of the tagging assignments to `search_score` and `search_method`. -/
def tagResult (score : Flt) (method : String) (r : SResult) : SResult :=
  { r with search_score := some score, search_method := some method }

/-- The `for keyword in keywords[:3]` loop, collecting each sub-search's
tagged results. -/
def mapExc {α β : Type} (f : α → Except String β) : List α → Except String (List β)
  | [] => .ok []
  | a :: l => do
    let b ← f a
    let bs ← mapExc f l
    pure (b :: bs)

/-- The body of the `try` block of `comprehensive_search`: the four strategies in
source order, tagged with their constant scores, then deduplicated, sorted
and truncated. -/
def comprehensive_body (ops : SearchOps) (q : String) (limit : Nat) :
    Except String (List SResult) := do
  let exact_results ← ops.simple ("\"" ++ q ++ "\"") (limit / 4)
  let exact_results := exact_results.map (tagResult (fl 1 1) "exact_phrase")
  let keyword_results ← ops.simple q (limit / 2)
  let keyword_results := keyword_results.map (tagResult (fl 8 10) "keywords")
  let keywords ← ops.extract q
  let single_lists ← mapExc (fun k => do
      let rs ← ops.simple k (limit / 4)
      pure (rs.map (tagResult (fl 6 10) ("keyword_" ++ k)))) (keywords.take 3)
  let topic_results ← ops.topics q (limit / 4)
  let topic_results := topic_results.map (tagResult (fl 9 10) "topic_title")
  pure (merge_results ([exact_results, keyword_results] ++ single_lists ++ [topic_results]) limit)

/-- Embedding of `comprehensive_search` with its `except Exception` handler: on any fault
inside the `try` block it returns `self.simple_search(query, limit)` (the
fallback call sits outside the `try`, so a fault raised by it would
propagate). -/
def comprehensive_search_exc (ops : SearchOps) (q : String) (limit : Nat) :
    Except String (List SResult) :=
  match comprehensive_body ops q limit with
  | .ok r => .ok r
  | .error _ => ops.simple q limit

/-- Embedding of `SearchService.comprehensive_search` on the concrete service.  The
`.getD []` branch is dead code: the concrete sub-searches are total, so the
computation never ends in `.error` (proved in `C6`). -/
def comprehensive_search (svc : Service) (q : String) (limit : Nat) : List SResult :=
  (comprehensive_search_exc (svcOps svc) q limit).toOption.getD []

/-! ## `full_text_search` -/

/-- Python `if category_id:` / `if topic_id:` — the SQL filter is added only
when the optional id is truthy (0 is falsy in Python, so `some 0` adds no
filter). -/
def catCond (o : Option Nat) (v : Nat) : Bool :=
  match o with
  | none => true
  | some cid => decide (cid = 0) || decide (v = cid)

/-- Embedding of the content truncation `row.content[:500] + "..."`. -/
def truncAt (n : Nat) (s : String) : String :=
  if n < s.length then String.mk (s.data.take n) ++ "..." else s

/-- Select list of `full_text_search`. -/
structure TextRow where
  id : Nat
  content : String
  created_at : Int
  like_count : Nat
  reply_count : Nat
  trust_level : Nat
  topic_id : Nat
  topic_title : String
  topic_slug : String
  category_id : Nat
  category_name : String
  user_id : Option Nat
  username : Option String
  user_name : Option String
deriving DecidableEq

def mkTextRow (p : Post) (t : Topic) (c : Category) (u : Option User) : TextRow :=
  { id := p.id, content := p.content, created_at := p.created_at,
    like_count := p.like_count, reply_count := p.reply_count,
    trust_level := p.trust_level, topic_id := t.id, topic_title := t.title,
    topic_slug := t.slug, category_id := c.id, category_name := c.name,
    user_id := u.map User.id, username := u.map User.username,
    user_name := u.map User.name }

structure TResult where
  post_id : Nat
  content : String
  created_at : Int
  like_count : Nat
  reply_count : Nat
  trust_level : Nat
  topic_id : Nat
  topic_title : String
  topic_slug : String
  category_id : Nat
  category_name : String
  user_id : Option Nat
  username : Option String
  user_name : Option String
  search_type : String
deriving DecidableEq

def formatTextRow (r : TextRow) : TResult :=
  { post_id := r.id, content := truncAt 500 r.content, created_at := r.created_at,
    like_count := r.like_count, reply_count := r.reply_count,
    trust_level := r.trust_level, topic_id := r.topic_id,
    topic_title := r.topic_title, topic_slug := r.topic_slug,
    category_id := r.category_id, category_name := r.category_name,
    user_id := r.user_id, username := r.username, user_name := r.user_name,
    search_type := "full_text" }

/-- Embedding of `(posts.content ILIKE :query OR topics.title ILIKE :query)` plus the
optional equality filters. -/
def textWhere (q : String) (catF topF : Option Nat) (p : Post) (t : Topic) : Bool :=
  (ilikeContains q p.content || ilikeContains q t.title) &&
    catCond catF t.category_id && catCond topF p.topic_id

/-- Embedding of `SearchService.full_text_search`: the result page and the total count
(`COUNT(DISTINCT posts.id)` over the posts–topics join with the same
`WHERE`). -/
def full_text_search (svc : Service) (q : String) (limit offset : Nat)
    (catF topF : Option Nat) : List TResult × Nat :=
  let page :=
    let rows := (joinedRows svc.db).filterMap fun (p, t, c, u) =>
      if textWhere q catF topF p t then some (mkTextRow p t c u) else none
    let rows := sqlDistinct rows
    let rows := rows.insertionSort (descByInt TextRow.created_at)
    ((rows.drop offset).take limit).map formatTextRow
  let total :=
    let pairs := svc.db.posts.flatMap fun p =>
      (svc.db.topics.filter fun t => decide (t.id = p.topic_id)).map fun t => (p, t)
    (sqlDistinct ((pairs.filter fun pt => textWhere q catF topF pt.1 pt.2).map
      fun pt => pt.1.id)).length
  (page, total)

/-! ## `semantic_search` -/

structure SemResult where
  post_id : Nat
  content : String
  created_at : Int
  like_count : Nat
  reply_count : Nat
  similarity_score : Flt
  topic_id : Nat
  topic_title : String
  category_id : Nat
  category_name : String
  username : Option String
  user_name : Option String
  search_type : String
deriving DecidableEq

def mkSemResult (p : Post) (t : Topic) (c : Category) (u : Option User)
    (sim : Flt) : SemResult :=
  { post_id := p.id, content := truncAt 500 p.content, created_at := p.created_at,
    like_count := p.like_count, reply_count := p.reply_count,
    similarity_score := sim, topic_id := t.id, topic_title := t.title,
    category_id := c.id, category_name := c.name,
    username := u.map User.username,
    user_name := match u with
      | some usr => if usr.username = "" then none else some usr.name
      | none => none,
    search_type := "semantic" }

/-- Embedding of `SearchService.semantic_search`: embed the query, keep joined rows whose
embedding is present, score them `1 - (embedding <=> query_embedding)`,
filter by the similarity floor, order descending, truncate. -/
def semantic_search (svc : Service) (q : String) (limit : Nat)
    (similarity_threshold : Flt) (catF : Option Nat) : List SemResult :=
  let query_embedding := svc.embed q
  let rows := (joinedRows svc.db).filterMap fun (p, t, c, u) =>
    match p.content_embedding with
    | none => none
    | some e =>
      if catCond catF t.category_id then
        let sim := (1 : Flt) - svc.cosDist e query_embedding
        if similarity_threshold ≤ sim then some (mkSemResult p t c u sim) else none
      else none
  ((rows.insertionSort (descBy SemResult.similarity_score)).take limit)

/-! ## `hybrid_search` -/

/-- The blended entry stored in `combined_results` (the pass-through dict
fields spread from the underlying result are omitted: the blending reads and
writes only these). -/
structure HResult where
  post_id : Nat
  text_score : Flt
  semantic_score : Flt
  hybrid_score : Flt
  search_type : String
deriving DecidableEq

/-- Python dict assignment `d[k] = v`: replace in place or append. -/
def dictSet : List (Nat × HResult) → Nat → HResult → List (Nat × HResult)
  | [], k, v => [(k, v)]
  | (k', v') :: rest, k, v =>
    if k' = k then (k, v) :: rest else (k', v') :: dictSet rest k v

/-- Python `combined_results[post_id]` / `post_id in combined_results`. -/
def dictGet : List (Nat × HResult) → Nat → Option HResult
  | [], _ => none
  | (k', v') :: rest, k => if k' = k then some v' else dictGet rest k

/-- The entry the text loop stores for the result at rank `i` of a text
list of length `n`: `text_score = 1 - i/n`, `semantic_score = 0`,
`hybrid_score = text_score * text_weight`. -/
def textEntry (n : Nat) (text_weight : Flt) (i : Nat) (r : TResult) : HResult :=
  let text_score : Flt := 1 - Flt.ofNat i / Flt.ofNat n
  { post_id := r.post_id, text_score := text_score, semantic_score := 0,
    hybrid_score := text_score * text_weight, search_type := r.search_type }

/-- First loop of `hybrid_search`. -/
def hybridTextPhase (text_results : List TResult) (text_weight : Flt) :
    List (Nat × HResult) :=
  text_results.enum.foldl
    (fun d ir =>
      dictSet d ir.2.post_id (textEntry text_results.length text_weight ir.1 ir.2))
    []

/-- The update a semantic result applies to an entry already present:
`hybrid_score = text_score * text_weight + similarity * semantic_weight`. -/
def semUpdEntry (h : HResult) (s : SemResult) (text_weight semantic_weight : Flt) :
    HResult :=
  { h with semantic_score := s.similarity_score,
           hybrid_score := h.text_score * text_weight +
             s.similarity_score * semantic_weight,
           search_type := "hybrid" }

/-- The fresh entry for a semantic-only result: the text side contributes
exactly 0. -/
def semFreshEntry (s : SemResult) (semantic_weight : Flt) : HResult :=
  { post_id := s.post_id, text_score := 0,
    semantic_score := s.similarity_score,
    hybrid_score := s.similarity_score * semantic_weight,
    search_type := "hybrid" }

/-- Second loop of `hybrid_search`. -/
def hybridSemPhase (d0 : List (Nat × HResult)) (semantic_results : List SemResult)
    (text_weight semantic_weight : Flt) : List (Nat × HResult) :=
  semantic_results.foldl
    (fun d s =>
      match dictGet d s.post_id with
      | some h => dictSet d s.post_id (semUpdEntry h s text_weight semantic_weight)
      | none => dictSet d s.post_id (semFreshEntry s semantic_weight))
    d0

def hybridCombine (text_results : List TResult) (semantic_results : List SemResult)
    (text_weight semantic_weight : Flt) : List (Nat × HResult) :=
  hybridSemPhase (hybridTextPhase text_results text_weight) semantic_results
    text_weight semantic_weight

/-- Embedding of `SearchService.hybrid_search` (defaults: `semantic_weight = 0.6`,
`text_weight = 0.4`; the semantic sub-call uses its default similarity
threshold `0.3`). -/
def hybrid_search (svc : Service) (q : String) (limit : Nat)
    (semantic_weight text_weight : Flt) (catF : Option Nat) : List HResult :=
  let text_results := (full_text_search svc q (limit * 2) 0 catF none).1
  let semantic_results := semantic_search svc q (limit * 2) (fl 3 10) catF
  (((hybridCombine text_results semantic_results text_weight
        semantic_weight).map Prod.snd).insertionSort
      (descBy HResult.hybrid_score)).take limit

/-! ## `find_similar_posts` -/

structure FSResult where
  post_id : Nat
  content : String
  created_at : Int
  like_count : Nat
  similarity_score : Flt
  topic_id : Nat
  topic_title : String
  category_name : String
  username : Option String
deriving DecidableEq

def mkFSResult (p : Post) (t : Topic) (c : Category) (u : Option User)
    (sim : Flt) : FSResult :=
  { post_id := p.id, content := truncAt 300 p.content,
    created_at := p.created_at, like_count := p.like_count,
    similarity_score := sim, topic_id := t.id, topic_title := t.title,
    category_name := c.name, username := u.map User.username }

/-- Embedding of `SearchService.find_similar_posts`: look up the stored embedding of the reference post
embedding (`WHERE id = :post_id AND content_embedding IS NOT NULL`,
`fetchone`); fail softly with `[]` when it is missing or falsy; otherwise
return the floor-filtered neighbors, excluding the reference post itself,
descending by similarity. -/
def find_similar_posts (svc : Service) (post_id : Nat) (limit : Nat)
    (similarity_threshold : Flt) : List FSResult :=
  match (svc.db.posts.filter fun p =>
      decide (p.id = post_id) && p.content_embedding.isSome).head? with
  | none => []
  | some refp =>
    match refp.content_embedding with
    | none => []
    | some ref_embedding =>
      if ref_embedding.isEmpty then []
      else
        let rows := (joinedRows svc.db).filterMap fun (p, t, c, u) =>
          if p.id = post_id then none
          else
            match p.content_embedding with
            | none => none
            | some e =>
              let sim := (1 : Flt) - svc.cosDist e ref_embedding
              if similarity_threshold ≤ sim then some (mkFSResult p t c u sim)
              else none
        (rows.insertionSort (descBy FSResult.similarity_score)).take limit

/-! ## `get_trending_topics` -/

structure TrendRow where
  topic_id : Nat
  title : String
  slug : String
  category_name : String
  recent_posts : Nat
  total_likes : Nat
  last_activity : Int
  unique_participants : Nat
deriving DecidableEq

/-- Embedding of `ORDER BY COUNT(posts.id) DESC, SUM(posts.like_count) DESC,
MAX(posts.created_at) DESC`: lexicographic descending. -/
def trendOrder (a b : TrendRow) : Prop :=
  b.recent_posts < a.recent_posts ∨
    (a.recent_posts = b.recent_posts ∧
      (b.total_likes < a.total_likes ∨
        (a.total_likes = b.total_likes ∧ b.last_activity ≤ a.last_activity)))

instance : DecidableRel trendOrder :=
  fun a b =>
    inferInstanceAs (Decidable (b.recent_posts < a.recent_posts ∨
      (a.recent_posts = b.recent_posts ∧
        (b.total_likes < a.total_likes ∨
          (a.total_likes = b.total_likes ∧ b.last_activity ≤ a.last_activity)))))

instance : IsTotal TrendRow trendOrder :=
  ⟨fun a b => by unfold trendOrder; omega⟩

instance : IsTrans TrendRow trendOrder :=
  ⟨fun a b c hab hbc => by unfold trendOrder at *; omega⟩

/-- The posts that count toward the activity of a topic: `LEFT JOIN posts ON
topics.id = posts.topic_id AND posts.created_at >= NOW() - INTERVAL
':days days'` (timestamps are measured in days here, so the interval
subtraction is integer subtraction). -/
def recentPosts (db : DB) (now : Int) (days : Nat) (tid : Nat) : List Post :=
  db.posts.filter fun p =>
    decide (p.topic_id = tid) && decide (now - (days : Int) ≤ p.created_at)

def maxCreated (ps : List Post) : Int :=
  match ps.map Post.created_at with
  | [] => 0
  | x :: xs => xs.foldl max x

/-- Embedding of `SearchService.get_trending_topics` (`NOW()` passed in as `now`): only
topics created within `2 * days` are eligible, grouped rows with zero
recent posts are dropped by `HAVING COUNT(posts.id) > 0`, and the rest are
ordered by the lexicographic descending key and truncated. -/
def get_trending_topics (db : DB) (now : Int) (days limit : Nat)
    (catF : Option Nat) : List TrendRow :=
  let eligible := db.topics.filter fun t =>
    decide (now - (2 * days : Nat) ≤ t.created_at) && catCond catF t.category_id
  let rows := eligible.flatMap fun t =>
    (db.categories.filter fun c => decide (c.id = t.category_id)).map fun c =>
      let ps := recentPosts db now days t.id
      { topic_id := t.id, title := t.title, slug := t.slug,
        category_name := c.name, recent_posts := ps.length,
        total_likes := (ps.map Post.like_count).sum,
        last_activity := maxCreated ps,
        unique_participants := (sqlDistinct (ps.filterMap Post.user_id)).length :
        TrendRow }
  let rows := rows.filter fun r => decide (0 < r.recent_posts)
  (rows.insertionSort trendOrder).take limit

/-! ## Spec-side composition and concrete fixtures -/

/-- Modelled from the spec (§4.8): run exact-phrase (quota `limit/4`,
score 1.0), full-keyword (`limit/2`, 0.8), up to 3 extracted single keywords
(`limit/4` each, 0.6), and topic-title match (`limit/4`, 0.9); pass all
candidate lists to the merger; return up to `limit` results. -/
def comprehensive_search_spec (svc : Service) (q : String) (limit : Nat) :
    List SResult :=
  let exact := (simple_search svc ("\"" ++ q ++ "\"") (limit / 4)).map
    (tagResult (fl 1 1) "exact_phrase")
  let full := (simple_search svc q (limit / 2)).map (tagResult (fl 8 10) "keywords")
  let singles := ((extract_search_keywords q).take 3).map fun k =>
    (simple_search svc k (limit / 4)).map (tagResult (fl 6 10) ("keyword_" ++ k))
  let titles := (search_topics svc q (limit / 4)).map (tagResult (fl 9 10) "topic_title")
  merge_results ([exact, full] ++ singles ++ [titles]) limit

/-- A faulting collaborator assembly in which the topic search raises. -/
def faultyOps : SearchOps :=
  { simple := fun _ _ => .ok [],
    topics := fun _ _ => .error "database unreachable",
    extract := fun q => .ok (extract_search_keywords q) }

/-- A bare merge candidate with only the fields the merger reads populated. -/
def resC (pid : Nat) (sc : Option Flt) : SResult :=
  { post_id := pid, content := "", cooked := "", raw := "", created_at := 0,
    reply_count := 0, topic_id := 0, topic_title := "", topic_slug := "",
    category_id := 0, category_name := "", user_id := none, username := none,
    user_name := none, search_type := none, search_score := sc,
    search_method := none }

def post1 : Post :=
  { id := 1, topic_id := 10, user_id := some 100, content := "hello world",
    raw := "hello world", cooked := "<p>hello world</p>", created_at := 5,
    like_count := 2, reply_count := 0, trust_level := 1,
    content_embedding := some [fl 1 1] }

def post2 : Post :=
  { id := 2, topic_id := 10, user_id := some 100, content := "podman post",
    raw := "podman post", cooked := "<p>podman post</p>", created_at := -100,
    like_count := 0, reply_count := 0, trust_level := 1,
    content_embedding := some [fl 1 2] }

def db1 : DB :=
  { posts := [post1, post2],
    topics := [{ id := 10, title := "Greetings", slug := "greetings",
                 category_id := 20, created_at := 4 },
               { id := 11, title := "Silent", slug := "silent",
                 category_id := 20, created_at := 0 }],
    categories := [{ id := 20, name := "General" }],
    users := [{ id := 100, username := "alice", name := "Alice" }] }

def svc1 : Service := { db := db1, embed := fun _ => [], cosDist := fun _ _ => 0 }

def tRes1 : TResult :=
  { post_id := 1, content := "", created_at := 0, like_count := 0,
    reply_count := 0, trust_level := 0, topic_id := 0, topic_title := "",
    topic_slug := "", category_id := 0, category_name := "", user_id := none,
    username := none, user_name := none, search_type := "full_text" }

def semRes1 : SemResult :=
  { post_id := 1, content := "", created_at := 0, like_count := 0,
    reply_count := 0, similarity_score := fl 1 2, topic_id := 0,
    topic_title := "", category_id := 0, category_name := "", username := none,
    user_name := none, search_type := "semantic" }

def semRes2 : SemResult :=
  { post_id := 7, content := "", created_at := 0, like_count := 0,
    reply_count := 0, similarity_score := fl 9 10, topic_id := 0,
    topic_title := "", category_id := 0, category_name := "", username := none,
    user_name := none, search_type := "semantic" }

/-- The entry `semantic_search svc1 "x" ...` returns for `post1`. -/
def semOut1 : SemResult :=
  { post_id := 1, content := "hello world", created_at := 5, like_count := 2,
    reply_count := 0, similarity_score := fl 1 1, topic_id := 10,
    topic_title := "Greetings", category_id := 20, category_name := "General",
    username := some "alice", user_name := some "Alice",
    search_type := "semantic" }

/-- The neighbor entry `find_similar_posts svc1 1 ...` returns for `post2`. -/
def fsOut1 : FSResult :=
  { post_id := 2, content := "podman post", created_at := -100, like_count := 0,
    similarity_score := fl 1 1, topic_id := 10, topic_title := "Greetings",
    category_name := "General", username := some "alice" }

/-- Invariant of the merger fold: `seen` holds one entry per nonzero id
already processed, each entry drawn from the processed prefix and carrying
the maximum score among the processed candidates for that id. -/
def MergeInv (processed seen : List SResult) : Prop :=
  (seen.map SResult.post_id).Nodup ∧
  (∀ s ∈ seen, s.post_id ≠ 0) ∧
  (∀ s ∈ seen, s ∈ processed) ∧
  (∀ pid, pid ≠ 0 → (∃ c ∈ processed, c.post_id = pid) →
    pid ∈ seen.map SResult.post_id) ∧
  (∀ s ∈ seen, ∀ c ∈ processed, c.post_id = s.post_id → scoreD c ≤ scoreD s)

/-! ## Generic helper lemmas -/

theorem mem_insertionSort {α : Type} {rel : α → α → Prop} [DecidableRel rel]
    {a : α} {l : List α} : a ∈ l.insertionSort rel ↔ a ∈ l :=
  (List.perm_insertionSort rel l).mem_iff

theorem mem_of_mem_take {α : Type} {a : α} {l : List α} {n : Nat}
    (h : a ∈ l.take n) : a ∈ l :=
  (List.take_sublist n l).subset h

theorem pairwise_sortTake {α : Type} (rel : α → α → Prop) [DecidableRel rel]
    [IsTotal α rel] [IsTrans α rel] (l : List α) (n : Nat) :
    ((l.insertionSort rel).take n).Pairwise rel :=
  List.Pairwise.sublist (List.take_sublist n _) (List.sorted_insertionSort rel l)

theorem flatten_map_nil {α β : Type} (l : List α) :
    (l.map fun _ => ([] : List β)).flatten = [] := by
  induction l with
  | nil => rfl
  | cons a l ih => simp [ih]

theorem excBindOk {α β : Type} (a : α) (f : α → Except String β) :
    (Except.ok a >>= f) = f a := rfl

theorem excPureEq {α : Type} (a : α) : (pure a : Except String α) = Except.ok a := rfl

/-! ## C3: the orchestration refinement -/

theorem mapExc_ok {α β : Type} (f : α → Except String β) (g : α → β)
    (hf : ∀ a, f a = .ok (g a)) (l : List α) :
    mapExc f l = .ok (l.map g) := by
  induction l with
  | nil => rfl
  | cons a l ih => simp only [mapExc, hf, ih, excBindOk, excPureEq, List.map_cons]

theorem comprehensive_body_svc (svc : Service) (q : String) (limit : Nat) :
    comprehensive_body (svcOps svc) q limit =
      .ok (comprehensive_search_spec svc q limit) := by
  simp only [comprehensive_body, svcOps, excBindOk, excPureEq]
  rw [mapExc_ok _
    (fun k => (simple_search svc k (limit / 4)).map
      (tagResult (fl 6 10) ("keyword_" ++ k)))
    (fun a => rfl)]
  rfl

theorem comprehensive_search_eq_spec (svc : Service) (q : String) (limit : Nat) :
    comprehensive_search svc q limit = comprehensive_search_spec svc q limit := by
  simp [comprehensive_search, comprehensive_search_exc, comprehensive_body_svc,
    Except.toOption]

/-- C3: for every query and limit, `comprehensive_search` runs exactly the
four strategies (exact phrase at quota `limit/4` scored `1.0`, full keyword
at `limit/2` scored `0.8`, the first 3 extracted keywords at `limit/4` each
scored `0.6`, topic-title at `limit/4` scored `0.9`), passes all candidate
lists to the merger, and returns at most `limit` results. -/
theorem C3_strategies (svc : Service) (q : String) (limit : Nat) :
    comprehensive_search svc q limit = comprehensive_search_spec svc q limit ∧
    (comprehensive_search svc q limit).length ≤ limit := by
  refine ⟨comprehensive_search_eq_spec svc q limit, ?_⟩
  rw [comprehensive_search_eq_spec svc q limit]
  simp [comprehensive_search_spec, merge_results]

/-! ## C6: graceful degradation at the orchestrator boundary -/

/-- C6: if the pipeline body faults, the orchestrator answers with the plain
full-keyword `simple_search` on the original query and limit instead of
surfacing the error; on the concrete service the pipeline never faults and
the public entry point returns its (list) value. -/
theorem C6_graceful_fallback (ops : SearchOps) (q : String) (limit : Nat) :
    ((∃ e, comprehensive_body ops q limit = .error e) →
      comprehensive_search_exc ops q limit = ops.simple q limit) ∧
    (∀ svc : Service,
      comprehensive_search_exc (svcOps svc) q limit =
        .ok (comprehensive_search svc q limit)) := by
  constructor
  · rintro ⟨e, he⟩
    simp [comprehensive_search_exc, he]
  · intro svc
    simp [comprehensive_search_exc, comprehensive_body_svc,
      comprehensive_search, Except.toOption]

theorem C6_witness :
    comprehensive_search_exc faultyOps "podman" 8 = faultyOps.simple "podman" 8 :=
  (C6_graceful_fallback faultyOps "podman" 8).1 ⟨"database unreachable", rfl⟩

/-! ## C10: floor-division quotas starve sub-searches at small limits -/

theorem simple_search_zero (svc : Service) (q : String) :
    simple_search svc q 0 = [] := by
  simp [simple_search]

theorem search_topics_zero (svc : Service) (q : String) :
    search_topics svc q 0 = [] := by
  simp [search_topics]

/-- C10: the quotas are integer floor divisions, so for `limit < 4` the
exact-phrase, single-keyword and topic-title strategies are issued with
quota 0 and contribute nothing — only the full-keyword strategy (quota
`limit/2`) can contribute — and with `limit = 1` every quota is 0 and the
result is empty regardless of the store contents. -/
theorem C10_quota_starvation (svc : Service) (q : String) :
    comprehensive_search svc q 1 = [] ∧
    (∀ limit, limit < 4 →
      comprehensive_search svc q limit =
        ((deduplicate_results ((simple_search svc q (limit / 2)).map
            (tagResult (fl 8 10) "keywords"))).insertionSort
          (descBy scoreD)).take limit) := by
  have key : ∀ limit, limit < 4 →
      comprehensive_search svc q limit =
        ((deduplicate_results ((simple_search svc q (limit / 2)).map
            (tagResult (fl 8 10) "keywords"))).insertionSort
          (descBy scoreD)).take limit := by
    intro limit hlt
    have h4 : limit / 4 = 0 := Nat.div_eq_of_lt hlt
    rw [comprehensive_search_eq_spec]
    simp [comprehensive_search_spec, h4, simple_search_zero, search_topics_zero,
      merge_results, flatten_map_nil]
  refine ⟨?_, key⟩
  have h1 := key 1 (by omega)
  simpa [simple_search_zero, deduplicate_results] using h1

theorem C10_witness :
    simple_search svc1 "hello" 10 ≠ [] ∧
    comprehensive_search svc1 "hello" 1 = [] ∧
    (2 < 4 ∧ comprehensive_search svc1 "hello" 2 =
      ((deduplicate_results ((simple_search svc1 "hello" (2 / 2)).map
          (tagResult (fl 8 10) "keywords"))).insertionSort
        (descBy scoreD)).take 2) :=
  ⟨by decide, (C10_quota_starvation svc1 "hello").1,
   by omega, (C10_quota_starvation svc1 "hello").2 2 (by omega)⟩

/-! ## C4: no input validation; the empty query matches everything -/

theorem likeMatchF_percent (fuel : Nat) (s : List Char)
    (h : s.length + 2 ≤ fuel) : likeMatchF fuel ['%'] s = true := by
  induction fuel generalizing s with
  | zero => omega
  | succ f ih =>
    cases s with
    | nil =>
      have hf : 1 ≤ f := by simpa using h
      cases f with
      | zero => omega
      | succ f' => rfl
    | cons c s' =>
      have h' : s'.length + 2 ≤ f := by
        simp only [List.length_cons] at h; omega
      simp [likeMatchF, ih s' h']

theorem likeMatchF_percent_percent (fuel : Nat) (s : List Char)
    (h : s.length + 3 ≤ fuel) : likeMatchF fuel ['%', '%'] s = true := by
  cases fuel with
  | zero => omega
  | succ f =>
    have h' : s.length + 2 ≤ f := by omega
    simp [likeMatchF, likeMatchF_percent f s h']

theorem ilikeContains_empty (s : String) : ilikeContains "" s = true := by
  have : ("" : String).data = [] := rfl
  simp only [ilikeContains, this, List.nil_append, likeMatch]
  exact likeMatchF_percent_percent _ _
    (by simp only [List.length_cons, List.length_nil]; omega)

/-- C4 (amended): the search entry points perform no input validation; an
empty query is shipped to the store as the pattern `%%`, which matches every
joined row, so `simple_search` returns the first `limit` rows of the entire
store ordered by recency — the empty query is silently treated as matching
everything. -/
theorem C4_no_validation (svc : Service) (limit : Nat) :
    simple_search svc "" limit =
      (((sqlDistinct ((joinedRows svc.db).map fun r =>
          mkSimpleRow r.1 r.2.1 r.2.2.1 r.2.2.2)).insertionSort
        (descByInt SimpleRow.created_at)).take limit).map formatSimple := by
  have hall : ∀ r : SimpleRow, simpleWhere "" r = true := by
    intro r
    simp [simpleWhere, ilikeContains_empty]
  simp only [simple_search]
  rw [List.filter_eq_self.mpr fun a _ => hall a]

/-- C4 counterexample: with one stored post, the empty query is not rejected
— `simple_search` happily returns the post (the claim requires the call to
fail fast before issuing any store sub-query). -/
theorem C4_counterexample :
    simple_search svc1 "" 10 ≠ [] ∧
    (simple_search svc1 "" 10).length = (joinedRows db1).length := by decide

/-! ## C5: the keyword extractor does not deduplicate -/

theorem C5_counterexample :
    extract_search_keywords "cat cat" = ["cat", "cat"] ∧
    ¬ (extract_search_keywords "cat cat").Nodup := by decide

theorem isUpper_toLower (c : Char) : (Char.toLower c).isUpper = false := by
  simp only [Char.toLower, Char.isUpper]
  split
  · next h =>
    have hv : (c.toNat + 32).isValidChar := by left; omega
    rw [Char.ofNat, dif_pos hv]
    have hval : (Char.ofNatAux (c.toNat + 32) hv).val.toNat = c.toNat + 32 := rfl
    have h90 : ¬ ((Char.ofNatAux (c.toNat + 32) hv).val ≤ 90) := by
      have hiff : ((Char.ofNatAux (c.toNat + 32) hv).val ≤ (90 : UInt32)) ↔
          ((Char.ofNatAux (c.toNat + 32) hv).val.toNat ≤ (90 : UInt32).toNat) :=
        Iff.rfl
      rw [hiff, hval]
      have h90n : (90 : UInt32).toNat = 90 := rfl
      rw [h90n]
      omega
    simp [h90]
  · next h =>
    have h1 : ((65 : UInt32) ≤ c.val) ↔ (65 ≤ c.val.toNat) := Iff.rfl
    have h2 : (c.val ≤ (90 : UInt32)) ↔ (c.val.toNat ≤ 90) := Iff.rfl
    have htn : c.toNat = c.val.toNat := rfl
    rw [htn] at h
    simp only [ge_iff_le, Bool.and_eq_false_iff, decide_eq_false_iff_not, h1, h2]
    omega

theorem findWordsAux_chars (P : Char → Prop) (l : List Char) :
    ∀ (cur : List Char), (∀ c ∈ cur, P c) → (∀ c ∈ l, P c) →
      ∀ w ∈ findWordsAux cur l, ∀ ch ∈ w.data, P ch := by
  induction l with
  | nil =>
    intro cur hcur _ w hw ch hch
    simp only [findWordsAux] at hw
    split at hw
    · simp at hw
    · simp only [List.mem_singleton] at hw
      subst hw
      exact hcur ch (List.mem_reverse.mp hch)
  | cons c cs ih =>
    intro cur hcur hl w hw ch hch
    simp only [findWordsAux] at hw
    split at hw
    · exact ih (c :: cur)
        (by
          intro x hx
          rcases List.mem_cons.mp hx with h | h
          · exact h ▸ hl c (List.mem_cons_self c cs)
          · exact hcur x h)
        (fun x hx => hl x (List.mem_cons_of_mem c hx)) w hw ch hch
    · split at hw
      · exact ih [] (by simp) (fun x hx => hl x (List.mem_cons_of_mem c hx)) w hw ch hch
      · rcases List.mem_cons.mp hw with hw | hw
        · subst hw
          exact hcur ch (List.mem_reverse.mp hch)
        · exact ih [] (by simp) (fun x hx => hl x (List.mem_cons_of_mem c hx)) w hw ch hch

theorem mem_raw_of_mem_extract {q : String} {w : String}
    (h : w ∈ extract_search_keywords q) : w ∈ rawKeywords q := by
  simp only [extract_search_keywords, List.mem_append, List.mem_filter] at h
  rcases h with ⟨h, _⟩ | ⟨h, _⟩ <;> exact h

theorem raw_keyword_facts {q : String} {w : String} (h : w ∈ rawKeywords q) :
    2 < w.length ∧ w ∉ stop_words := by
  simp only [rawKeywords, List.mem_filter, Bool.and_eq_true, decide_eq_true_eq,
    Bool.not_eq_true', decide_eq_false_iff_not] at h
  exact h.2

theorem raw_keyword_lower {q : String} {w : String} (h : w ∈ rawKeywords q) :
    ∀ ch ∈ w.data, ch.isUpper = false := by
  have hw : w ∈ lowerWords q := by
    simp only [rawKeywords, List.mem_filter] at h
    exact h.1
  refine findWordsAux_chars (fun c => c.isUpper = false) _ [] (by simp) ?_ w hw
  intro c hc
  rcases List.mem_map.mp hc with ⟨c0, _, rfl⟩
  exact isUpper_toLower c0

theorem extract_eq_tech_first (q : String) :
    extract_search_keywords q =
      (rawKeywords q).filter isTechTerm ++
        (rawKeywords q).filter (fun w => ! isTechTerm w) := by
  simp only [extract_search_keywords]
  congr 1
  apply List.filter_congr
  intro k hk
  show (!(decide (k ∈ (rawKeywords q).filter isTechTerm))) = (!(isTechTerm k))
  cases ht : isTechTerm k with
  | true =>
    have hmem : k ∈ (rawKeywords q).filter isTechTerm :=
      List.mem_filter.mpr ⟨hk, ht⟩
    rw [decide_eq_true hmem]
  | false =>
    have hmem : k ∉ (rawKeywords q).filter isTechTerm := by
      intro hm
      rw [(List.mem_filter.mp hm).2] at ht
      cases ht
    rw [decide_eq_false hmem]

/-- C5 (amended): the extractor returns, in order, the lower-cased terms of
length > 2 that survive the stop-word filter — with repeated terms kept once
per occurrence (the source never deduplicates) — arranged so that every
technical-pattern term precedes every non-technical term; it is a pure
function of the query, hence deterministic. -/
theorem C5_extractor (q : String) :
    (∀ w ∈ extract_search_keywords q,
      2 < w.length ∧ w ∉ stop_words ∧ ∀ ch ∈ w.data, ch.isUpper = false) ∧
    extract_search_keywords q =
      (rawKeywords q).filter isTechTerm ++
        (rawKeywords q).filter (fun w => ! isTechTerm w) := by
  refine ⟨?_, extract_eq_tech_first q⟩
  intro w hw
  have hr := mem_raw_of_mem_extract hw
  exact ⟨(raw_keyword_facts hr).1, (raw_keyword_facts hr).2, raw_keyword_lower hr⟩

theorem C5_witness :
    (2 < ("gpt" : String).length ∧ ("gpt" : String) ∉ stop_words ∧
      ∀ ch ∈ ("gpt" : String).data, ch.isUpper = false) ∧
    extract_search_keywords "gpt docker" =
      (rawKeywords "gpt docker").filter isTechTerm ++
        (rawKeywords "gpt docker").filter (fun w => ! isTechTerm w) :=
  ⟨(C5_extractor "gpt docker").1 "gpt" (by decide), (C5_extractor "gpt docker").2⟩

/-! ## C1: merger/deduplicator -/

theorem updateSeen_map_pid (seen : List SResult) (r : SResult) :
    (updateSeen seen r).map SResult.post_id =
      if r.post_id ∈ seen.map SResult.post_id then seen.map SResult.post_id
      else seen.map SResult.post_id ++ [r.post_id] := by
  induction seen with
  | nil => simp [updateSeen]
  | cons s rest ih =>
    by_cases h : s.post_id = r.post_id
    · simp only [updateSeen, if_pos h, List.map_cons]
      have hmem : r.post_id ∈ s.post_id :: rest.map SResult.post_id := by
        simp [h]
      rw [if_pos hmem]
      split
      · simp [h]
      · rfl
    · simp only [updateSeen, if_neg h, List.map_cons, ih]
      by_cases hm : r.post_id ∈ rest.map SResult.post_id
      · rw [if_pos hm, if_pos (by simp [hm])]
      · have hno : r.post_id ∉ s.post_id :: rest.map SResult.post_id := by
          intro hcon
          rcases List.mem_cons.mp hcon with e | e
          · exact h e.symm
          · exact hm e
        rw [if_neg hm, if_neg hno]
        rfl

theorem updateSeen_spec {seen : List SResult} (r : SResult)
    (N : (seen.map SResult.post_id).Nodup) :
    ∀ x ∈ updateSeen seen r,
      (x ∈ seen ∧ x.post_id ≠ r.post_id) ∨
      (x.post_id = r.post_id ∧ scoreD r ≤ scoreD x ∧ (x = r ∨ x ∈ seen) ∧
        ∀ s0 ∈ seen, s0.post_id = r.post_id → scoreD s0 ≤ scoreD x) := by
  induction seen with
  | nil =>
    intro x hx
    simp only [updateSeen, List.mem_singleton] at hx
    subst hx
    exact Or.inr ⟨rfl, Flt.le_refl _, Or.inl rfl, by simp⟩
  | cons s rest ih =>
    have Nr : (rest.map SResult.post_id).Nodup := (List.nodup_cons.mp N).2
    have hnotin : s.post_id ∉ rest.map SResult.post_id := (List.nodup_cons.mp N).1
    intro x hx
    by_cases h : s.post_id = r.post_id
    · simp only [updateSeen, if_pos h] at hx
      rcases List.mem_cons.mp hx with hh | hh
      · by_cases hlt : scoreD s < scoreD r
        · rw [if_pos hlt] at hh
          subst hh
          refine Or.inr ⟨rfl, Flt.le_refl _, Or.inl rfl, ?_⟩
          intro s0 hs0 hpid
          rcases List.mem_cons.mp hs0 with he | hs0
          · rw [he]
            exact Int.le_of_lt hlt
          · exfalso
            apply hnotin
            rw [h, ← hpid]
            exact List.mem_map_of_mem SResult.post_id hs0
        · rw [if_neg hlt] at hh
          subst hh
          refine Or.inr ⟨h, Flt.not_lt.mp hlt,
            Or.inr (List.mem_cons_self _ _), ?_⟩
          intro s0 hs0 hpid
          rcases List.mem_cons.mp hs0 with he | hs0
          · rw [he]
            exact Flt.le_refl _
          · exfalso
            apply hnotin
            rw [h, ← hpid]
            exact List.mem_map_of_mem SResult.post_id hs0
      · refine Or.inl ⟨List.mem_cons_of_mem s hh, ?_⟩
        intro hpid
        apply hnotin
        rw [h, ← hpid]
        exact List.mem_map_of_mem SResult.post_id hh
    · simp only [updateSeen, if_neg h] at hx
      rcases List.mem_cons.mp hx with he | hh
      · subst he
        exact Or.inl ⟨List.mem_cons_self _ _, h⟩
      · rcases ih Nr x hh with ⟨hmem, hne⟩ | ⟨hpid, hle, hor, hall⟩
        · exact Or.inl ⟨List.mem_cons_of_mem s hmem, hne⟩
        · refine Or.inr ⟨hpid, hle, hor.imp id (List.mem_cons_of_mem s), ?_⟩
          intro s0 hs0 hp0
          rcases List.mem_cons.mp hs0 with he | hs0
          · rw [he] at hp0
            exact absurd hp0 h
          · exact hall s0 hs0 hp0

theorem mem_updateSeen {seen : List SResult} {r s' : SResult}
    (h : s' ∈ updateSeen seen r) : s' ∈ seen ∨ s' = r := by
  induction seen with
  | nil =>
    simp only [updateSeen, List.mem_singleton] at h
    exact Or.inr h
  | cons s rest ih =>
    simp only [updateSeen] at h
    split at h
    · rcases List.mem_cons.mp h with hh | hh
      · split at hh
        · exact Or.inr hh
        · exact Or.inl (hh ▸ List.mem_cons_self s rest)
      · exact Or.inl (List.mem_cons_of_mem s hh)
    · rcases List.mem_cons.mp h with rfl | hh
      · exact Or.inl (List.mem_cons_self s' rest)
      · rcases ih hh with hm | hm
        · exact Or.inl (List.mem_cons_of_mem s hm)
        · exact Or.inr hm

theorem dedupStep_inv {processed seen : List SResult} (r : SResult)
    (h : MergeInv processed seen) : MergeInv (processed ++ [r]) (dedupStep seen r) := by
  obtain ⟨N, Z, M, C, X⟩ := h
  by_cases h0 : r.post_id = 0
  · rw [dedupStep, if_pos h0]
    refine ⟨N, Z, fun s hs => List.mem_append_left _ (M s hs), ?_, ?_⟩
    · intro pid hpid ⟨c, hc, hcp⟩
      rcases List.mem_append.mp hc with hc | hc
      · exact C pid hpid ⟨c, hc, hcp⟩
      · rw [List.mem_singleton] at hc
        subst hc
        exact absurd (by rw [← hcp]; exact h0) hpid
    · intro s hs c hc hcp
      rcases List.mem_append.mp hc with hc | hc
      · exact X s hs c hc hcp
      · rw [List.mem_singleton] at hc
        subst hc
        exact absurd (by rw [← hcp]; exact h0) (Z s hs)
  · rw [dedupStep, if_neg h0]
    refine ⟨?_, ?_, ?_, ?_, ?_⟩
    · rw [updateSeen_map_pid]
      split
      · exact N
      · exact List.Nodup.append N (List.nodup_singleton _)
          (by
            intro a ha hb
            rw [List.mem_singleton] at hb
            subst hb
            next hni => exact hni ha)
    · intro s hs
      rcases mem_updateSeen hs with hm | rfl
      · exact Z s hm
      · exact h0
    · intro s hs
      rcases mem_updateSeen hs with hm | rfl
      · exact List.mem_append_left _ (M s hm)
      · exact List.mem_append_right _ (List.mem_singleton_self s)
    · intro pid hpid ⟨c, hc, hcp⟩
      rw [updateSeen_map_pid]
      rcases List.mem_append.mp hc with hc | hc
      · have := C pid hpid ⟨c, hc, hcp⟩
        split
        · exact this
        · exact List.mem_append_left _ this
      · rw [List.mem_singleton] at hc
        subst hc
        subst hcp
        split
        · next hin => exact hin
        · exact List.mem_append_right _ (List.mem_singleton_self _)
    · intro s hs c hc hcp
      rcases updateSeen_spec r N s hs with ⟨hmem, hne⟩ | ⟨hpid, hler, _, hall⟩
      · rcases List.mem_append.mp hc with hc | hc
        · exact X s hmem c hc hcp
        · rw [List.mem_singleton] at hc
          subst hc
          exact absurd hcp.symm hne
      · rcases List.mem_append.mp hc with hc | hc
        · have hex : ∃ c0 ∈ processed, c0.post_id = r.post_id :=
            ⟨c, hc, hcp.trans hpid⟩
          have hin := C r.post_id h0 hex
          rcases List.mem_map.mp hin with ⟨s0, hs0, hps0⟩
          exact Flt.le_trans (X s0 hs0 c hc (by rw [hcp, hpid, hps0]))
            (hall s0 hs0 hps0)
        · rw [List.mem_singleton] at hc
          subst hc
          exact hler

theorem foldl_dedup_inv (rs : List SResult) :
    ∀ processed seen, MergeInv processed seen →
      MergeInv (processed ++ rs) (rs.foldl dedupStep seen) := by
  induction rs with
  | nil => intro p s h; simpa using h
  | cons r rs ih =>
    intro p s h
    have := ih (p ++ [r]) (dedupStep s r) (dedupStep_inv r h)
    simpa [List.append_assoc] using this

theorem dedup_inv (rs : List SResult) : MergeInv rs (deduplicate_results rs) := by
  have h0 : MergeInv [] [] := by
    refine ⟨by simp, by simp, by simp, ?_, by simp⟩
    intro pid _ ⟨c, hc, _⟩
    simp at hc
  simpa using foldl_dedup_inv rs [] [] h0

theorem decide_eq_beq (a b : Nat) : (decide (a = b)) = (a == b) := by
  by_cases h : a = b <;> simp [h]

theorem filter_pid_length (l : List SResult) (pid : Nat) :
    (l.filter fun s => decide (s.post_id = pid)).length =
      (l.map SResult.post_id).count pid := by
  rw [← List.countP_eq_length_filter, List.count, List.countP_map]
  apply List.countP_congr
  intro s _
  simp only [Function.comp_apply, decide_eq_beq]

/-- C1 (amended): for every collection of candidate lists and every nonzero
`item_id` appearing in them, the deduplicated mapping holds exactly one
entry for that id — one of the candidates, carrying the maximum
`search_score` (a later candidate replaces the stored one only on strict
excess) — and the final merged output is sorted by score non-increasing and
truncated to at most `limit` entries.  (Candidates whose id is 0 — falsy in
Python — are dropped, which is what the counterexample exhibits.) -/
theorem C1_merge_correct (lists : List (List SResult)) (limit : Nat) (pid : Nat)
    (hpid : pid ≠ 0) (happ : ∃ l ∈ lists, ∃ c ∈ l, c.post_id = pid) :
    ((deduplicate_results lists.flatten).filter
        fun s => decide (s.post_id = pid)).length = 1 ∧
    (∃ s ∈ deduplicate_results lists.flatten, s.post_id = pid ∧
      s ∈ lists.flatten ∧
      ∀ c ∈ lists.flatten, c.post_id = pid → scoreD c ≤ scoreD s) ∧
    (merge_results lists limit).Pairwise (descBy scoreD) ∧
    (merge_results lists limit).length ≤ limit := by
  obtain ⟨N, _, M, C, X⟩ := dedup_inv lists.flatten
  have hflat : ∃ c ∈ lists.flatten, c.post_id = pid := by
    obtain ⟨l, hl, c, hc, hcp⟩ := happ
    exact ⟨c, List.mem_flatten.mpr ⟨l, hl, hc⟩, hcp⟩
  have hin : pid ∈ (deduplicate_results lists.flatten).map SResult.post_id :=
    C pid hpid hflat
  refine ⟨?_, ?_, ?_, ?_⟩
  · rw [filter_pid_length]
    exact List.count_eq_one_of_mem N hin
  · obtain ⟨s, hs, hps⟩ := List.mem_map.mp hin
    exact ⟨s, hs, hps, M s hs, fun c hc hcp => X s hs c hc (by rw [hcp, hps])⟩
  · exact pairwise_sortTake (descBy scoreD) _ limit
  · exact List.length_take_le _ _

theorem C1_witness :
    ((1 : Nat) ≠ 0 ∧
      ∃ l ∈ [[resC 1 (some (fl 6 10))], [resC 1 (some (fl 9 10)), resC 2 none]],
        ∃ c ∈ l, c.post_id = 1) ∧
    ((deduplicate_results
        [[resC 1 (some (fl 6 10))],
         [resC 1 (some (fl 9 10)), resC 2 none]].flatten).filter
      fun s => decide (s.post_id = 1)).length = 1 :=
  ⟨⟨by decide, by decide⟩,
   (C1_merge_correct
      [[resC 1 (some (fl 6 10))], [resC 1 (some (fl 9 10)), resC 2 none]]
      5 1 (by decide) (by decide)).1⟩

/-- C1 counterexample: a candidate with `post_id = 0` appears in a candidate
list, yet the merged output holds no entry for it — the claimed "exactly one
entry per item_id that appears" fails (`0` is falsy, so `if post_id:` skips
the candidate). -/
theorem C1_counterexample :
    (∃ c ∈ [resC 0 (some (fl 1 1))], c.post_id = 0) ∧
    deduplicate_results [resC 0 (some (fl 1 1))] = [] := by decide

/-! ## C7: trending topics window and ordering -/

/-- C7: trending rows only come from topics created within `2 * days`; a
topic with no post inside the last `days` never appears, even if it was
created within `2 * days`; and the output is ordered lexicographically
descending on (recent post count, total reactions, last activity). -/
theorem C7_trending (db : DB) (now : Int) (days limit : Nat) (catF : Option Nat) :
    (∀ r ∈ get_trending_topics db now days limit catF,
      ∃ t ∈ db.topics, t.id = r.topic_id ∧
        now - (2 * days : Nat) ≤ t.created_at) ∧
    (∀ tid, recentPosts db now days tid = [] →
      ∀ r ∈ get_trending_topics db now days limit catF, r.topic_id ≠ tid) ∧
    (get_trending_topics db now days limit catF).Pairwise trendOrder := by
  have hmem : ∀ r ∈ get_trending_topics db now days limit catF,
      ∃ t ∈ db.topics, t.id = r.topic_id ∧
        now - (2 * days : Nat) ≤ t.created_at ∧
        r.recent_posts = (recentPosts db now days t.id).length ∧
        0 < r.recent_posts := by
    intro r hr
    simp only [get_trending_topics] at hr
    have hr1 := mem_insertionSort.mp (mem_of_mem_take hr)
    rw [List.mem_filter, decide_eq_true_eq] at hr1
    obtain ⟨hrows, hpos⟩ := hr1
    rw [List.mem_flatMap] at hrows
    obtain ⟨t, ht, hr2⟩ := hrows
    rw [List.mem_map] at hr2
    obtain ⟨c, _, hrec⟩ := hr2
    rw [List.mem_filter, Bool.and_eq_true, decide_eq_true_eq] at ht
    refine ⟨t, ht.1, ?_, ht.2.1, ?_, hpos⟩
    · rw [← hrec]
    · rw [← hrec]
  refine ⟨?_, ?_, ?_⟩
  · intro r hr
    obtain ⟨t, ht, hid, hcr, _, _⟩ := hmem r hr
    exact ⟨t, ht, hid, hcr⟩
  · intro tid hempty r hr hcon
    obtain ⟨t, _, hid, _, hcount, hpos⟩ := hmem r hr
    rw [hid, hcon, hempty] at hcount
    rw [hcount] at hpos
    exact Nat.lt_irrefl 0 hpos
  · simp only [get_trending_topics]
    exact pairwise_sortTake trendOrder _ limit

theorem C7_witness :
    ((∃ t ∈ db1.topics, t.id = 10 ∧ (6 : Int) - (2 * 7 : Nat) ≤ t.created_at) ∧
      (∃ r ∈ get_trending_topics db1 6 7 5 none, r.topic_id = 10)) ∧
    (recentPosts db1 6 7 11 = [] ∧
      ∀ r ∈ get_trending_topics db1 6 7 5 none, r.topic_id ≠ 11) :=
  ⟨⟨by decide, by decide⟩,
   ⟨by decide, (C7_trending db1 6 7 5 none).2.1 11 (by decide)⟩⟩

/-! ## C8: vector matcher floor, provenance and ordering -/

theorem joinedRows_post {db : DB} {x : Post × Topic × Category × Option User}
    (h : x ∈ joinedRows db) : x.1 ∈ db.posts := by
  simp only [joinedRows, List.mem_flatMap, List.mem_map, List.mem_filter] at h
  obtain ⟨p, hp, t, _, c, _, u, _, rfl⟩ := h
  exact hp

/-- C8: every entry of `semantic_search` originates from a stored post whose
embedding is present, carries similarity `1 - cosineDistance(embedding,
queryEmbedding)`, respects the similarity floor, and the list is ordered
descending by similarity. -/
theorem C8_semantic (svc : Service) (q : String) (limit : Nat)
    (threshold : Flt) (catF : Option Nat) :
    (∀ r ∈ semantic_search svc q limit threshold catF,
      threshold ≤ r.similarity_score ∧
      ∃ p ∈ svc.db.posts, p.id = r.post_id ∧
        ∃ e, p.content_embedding = some e ∧
          r.similarity_score = (1 : Flt) - svc.cosDist e (svc.embed q)) ∧
    (semantic_search svc q limit threshold catF).Pairwise
      (descBy SemResult.similarity_score) := by
  constructor
  · intro r hr
    simp only [semantic_search] at hr
    have hr1 := mem_insertionSort.mp (mem_of_mem_take hr)
    rw [List.mem_filterMap] at hr1
    obtain ⟨x, hx, hfx⟩ := hr1
    obtain ⟨p, t, c, u⟩ := x
    have hp : p ∈ svc.db.posts := joinedRows_post hx
    rcases hemb : p.content_embedding with _ | e
    · simp only [hemb] at hfx
      cases hfx
    · simp only [hemb] at hfx
      by_cases hcat : catCond catF t.category_id = true
      · rw [if_pos hcat] at hfx
        by_cases hth : threshold ≤ (1 : Flt) - svc.cosDist e (svc.embed q)
        · rw [if_pos hth] at hfx
          obtain rfl := Option.some.inj hfx
          exact ⟨hth, p, hp, rfl, e, hemb, rfl⟩
        · rw [if_neg hth] at hfx
          cases hfx
      · rw [if_neg hcat] at hfx
        cases hfx
  · simp only [semantic_search]
    exact pairwise_sortTake (descBy SemResult.similarity_score) _ limit

theorem C8_witness :
    semOut1 ∈ semantic_search svc1 "x" 5 (fl 3 10) none ∧
    (fl 3 10 ≤ semOut1.similarity_score ∧
      ∃ p ∈ svc1.db.posts, p.id = semOut1.post_id ∧
        ∃ e, p.content_embedding = some e ∧
          semOut1.similarity_score = (1 : Flt) - svc1.cosDist e (svc1.embed "x")) :=
  ⟨by decide,
   (C8_semantic svc1 "x" 5 (fl 3 10) none).1 semOut1 (by decide)⟩

/-! ## C9: the similarity neighbor finder fails softly and floor-filters -/

/-- C9: when no stored post with the reference id has an embedding, the call
returns `[]` (and, being a total function, never propagates an error);
otherwise every returned neighbor is a different post with similarity at
least the floor, ordered descending by similarity. -/
theorem C9_neighbors (svc : Service) (post_id limit : Nat) (threshold : Flt) :
    ((∀ p ∈ svc.db.posts, p.id = post_id → p.content_embedding = none) →
      find_similar_posts svc post_id limit threshold = []) ∧
    (∀ r ∈ find_similar_posts svc post_id limit threshold,
      r.post_id ≠ post_id ∧ threshold ≤ r.similarity_score) ∧
    (find_similar_posts svc post_id limit threshold).Pairwise
      (descBy FSResult.similarity_score) := by
  have memCase : ∀ r ∈ find_similar_posts svc post_id limit threshold,
      r.post_id ≠ post_id ∧ threshold ≤ r.similarity_score := by
    intro r hr
    rcases hhead : (svc.db.posts.filter fun p =>
        decide (p.id = post_id) && p.content_embedding.isSome).head? with _ | refp
    · simp only [find_similar_posts, hhead] at hr
      cases hr
    · simp only [find_similar_posts, hhead] at hr
      rcases hemb : refp.content_embedding with _ | ref_e
      · simp only [hemb] at hr
        cases hr
      · simp only [hemb] at hr
        by_cases hie : ref_e.isEmpty = true
        · rw [if_pos hie] at hr
          cases hr
        · rw [if_neg hie] at hr
          have hr1 := mem_insertionSort.mp (mem_of_mem_take hr)
          rw [List.mem_filterMap] at hr1
          obtain ⟨x, _, hfx⟩ := hr1
          obtain ⟨p, t, c, u⟩ := x
          by_cases hne : p.id = post_id
          · rw [if_pos hne] at hfx
            cases hfx
          · rw [if_neg hne] at hfx
            rcases hemb2 : p.content_embedding with _ | e
            · simp only [hemb2] at hfx
              cases hfx
            · simp only [hemb2] at hfx
              by_cases hth : threshold ≤ (1 : Flt) - svc.cosDist e ref_e
              · rw [if_pos hth] at hfx
                obtain rfl := Option.some.inj hfx
                exact ⟨hne, hth⟩
              · rw [if_neg hth] at hfx
                cases hfx
  refine ⟨?_, memCase, ?_⟩
  · intro hnone
    have hfil : svc.db.posts.filter
        (fun p => decide (p.id = post_id) && p.content_embedding.isSome) = [] := by
      rw [List.filter_eq_nil_iff]
      intro p hp hcon
      rw [Bool.and_eq_true, decide_eq_true_eq] at hcon
      obtain ⟨hid, hsome⟩ := hcon
      rw [hnone p hp hid] at hsome
      simp at hsome
    simp only [find_similar_posts, hfil]
    rfl
  · rcases hhead : (svc.db.posts.filter fun p =>
        decide (p.id = post_id) && p.content_embedding.isSome).head? with _ | refp
    · simp only [find_similar_posts, hhead]
      exact List.Pairwise.nil
    · simp only [find_similar_posts, hhead]
      rcases hemb : refp.content_embedding with _ | ref_e
      · simp only [hemb]
        exact List.Pairwise.nil
      · simp only [hemb]
        by_cases hie : ref_e.isEmpty = true
        · rw [if_pos hie]
          exact List.Pairwise.nil
        · rw [if_neg hie]
          exact pairwise_sortTake (descBy FSResult.similarity_score) _ limit

theorem C9_witness :
    ((∀ p ∈ svc1.db.posts, p.id = 99 → p.content_embedding = none) ∧
      find_similar_posts svc1 99 5 (fl 1 2) = []) ∧
    (fsOut1 ∈ find_similar_posts svc1 1 5 (fl 1 2) ∧
      fsOut1.post_id ≠ 1 ∧ fl 1 2 ≤ fsOut1.similarity_score) :=
  ⟨⟨by decide, (C9_neighbors svc1 99 5 (fl 1 2)).1 (by decide)⟩,
   ⟨by decide, (C9_neighbors svc1 1 5 (fl 1 2)).2.1 fsOut1 (by decide)⟩⟩

/-! ## C2: hybrid blending -/

theorem dictGet_set_eq (d : List (Nat × HResult)) (k : Nat) (v : HResult) :
    dictGet (dictSet d k v) k = some v := by
  induction d with
  | nil => simp [dictSet, dictGet]
  | cons kv rest ih =>
    obtain ⟨k0, v0⟩ := kv
    by_cases h : k0 = k
    · simp [dictSet, h, dictGet]
    · simp [dictSet, dictGet, h, ih]

theorem dictGet_set_ne (d : List (Nat × HResult)) {k k' : Nat} (v : HResult)
    (h : k' ≠ k) : dictGet (dictSet d k v) k' = dictGet d k' := by
  have hk : k ≠ k' := fun e => h e.symm
  induction d with
  | nil => simp [dictSet, dictGet, hk]
  | cons kv rest ih =>
    obtain ⟨k0, v0⟩ := kv
    by_cases h0 : k0 = k
    · subst h0
      simp [dictSet, dictGet, hk]
    · simp [dictSet, dictGet, h0, ih]

theorem dictGet_of_forall_ne {d : List (Nat × HResult)} {k : Nat}
    (h : ∀ kv ∈ d, kv.1 ≠ k) : dictGet d k = none := by
  induction d with
  | nil => rfl
  | cons kv rest ih =>
    obtain ⟨k0, v0⟩ := kv
    have hk0 : k0 ≠ k := h (k0, v0) (List.mem_cons_self _ _)
    simp only [dictGet, if_neg hk0]
    exact ih fun x hx => h x (List.mem_cons_of_mem _ hx)

theorem dictSet_fresh {d : List (Nat × HResult)} {k : Nat} (v : HResult)
    (h : ∀ kv ∈ d, kv.1 ≠ k) : dictSet d k v = d ++ [(k, v)] := by
  induction d with
  | nil => rfl
  | cons kv rest ih =>
    obtain ⟨k0, v0⟩ := kv
    have hk0 : k0 ≠ k := h (k0, v0) (List.mem_cons_self _ _)
    simp only [dictSet, if_neg hk0, List.cons_append, List.cons.injEq, true_and]
    exact ih fun x hx => h x (List.mem_cons_of_mem _ hx)

theorem dictGet_mem_nodup {d : List (Nat × HResult)} {k : Nat} {v : HResult}
    (hnd : (d.map Prod.fst).Nodup) (hm : (k, v) ∈ d) : dictGet d k = some v := by
  induction d with
  | nil => cases hm
  | cons kv rest ih =>
    obtain ⟨k0, v0⟩ := kv
    rcases List.mem_cons.mp hm with he | hmem
    · injection he with h1 h2
      subst h1
      subst h2
      simp [dictGet]
    · have hnd' : (k0 :: rest.map Prod.fst).Nodup := by
        rw [List.map_cons] at hnd
        exact hnd
      have hk0 : k0 ≠ k := by
        intro hcon
        subst hcon
        exact (List.nodup_cons.mp hnd').1
          (by
            have := List.mem_map_of_mem Prod.fst hmem
            simpa using this)
      simp only [dictGet, if_neg hk0]
      exact ih (List.nodup_cons.mp hnd').2 hmem

theorem foldl_dictSet_fresh (f : Nat × TResult → HResult) :
    ∀ (ps : List (Nat × TResult)) (d : List (Nat × HResult)),
      (∀ kv ∈ d, ∀ ir ∈ ps, kv.1 ≠ ir.2.post_id) →
      (ps.map fun ir => ir.2.post_id).Nodup →
      ps.foldl (fun d ir => dictSet d ir.2.post_id (f ir)) d =
        d ++ ps.map fun ir => (ir.2.post_id, f ir) := by
  intro ps
  induction ps with
  | nil => intro d _ _; simp
  | cons p rest ih =>
    intro d hdisj hnd
    simp only [List.foldl_cons, List.map_cons]
    have hfresh : ∀ kv ∈ d, kv.1 ≠ p.2.post_id :=
      fun kv hkv => hdisj kv hkv p (List.mem_cons_self _ _)
    rw [dictSet_fresh (f p) hfresh]
    rw [ih (d ++ [(p.2.post_id, f p)])
      (by
        intro kv hkv ir hir
        rcases List.mem_append.mp hkv with hkv | hkv
        · exact hdisj kv hkv ir (List.mem_cons_of_mem _ hir)
        · rw [List.mem_singleton] at hkv
          subst hkv
          intro hcon
          apply (List.nodup_cons.mp hnd).1
          have hcon' : p.2.post_id = ir.2.post_id := hcon
          show p.2.post_id ∈ List.map (fun ir => ir.2.post_id) rest
          rw [hcon']
          exact List.mem_map_of_mem (fun ir => ir.2.post_id) hir)
      (List.nodup_cons.mp hnd).2]
    simp

theorem enum_pids (texts : List TResult) :
    (texts.enum.map fun ir => ir.2.post_id) = texts.map TResult.post_id := by
  have h1 : (fun ir : Nat × TResult => ir.2.post_id) =
      (TResult.post_id ∘ Prod.snd) := rfl
  rw [h1, ← List.map_map, List.enum_map_snd]

theorem hybridTextPhase_eq (texts : List TResult) (tw : Flt)
    (hT : (texts.map TResult.post_id).Nodup) :
    hybridTextPhase texts tw =
      texts.enum.map fun ir => (ir.2.post_id, textEntry texts.length tw ir.1 ir.2) := by
  rw [hybridTextPhase, foldl_dictSet_fresh _ texts.enum [] (by simp)
    (by rw [enum_pids texts]; exact hT)]
  rfl

theorem hybridSemPhase_get_not_mem (sems : List SemResult) :
    ∀ (d0 : List (Nat × HResult)) (tw sw : Flt) (k : Nat),
      k ∉ sems.map SemResult.post_id →
      dictGet (hybridSemPhase d0 sems tw sw) k = dictGet d0 k := by
  induction sems with
  | nil => intro d0 tw sw k _; rfl
  | cons s rest ih =>
    intro d0 tw sw k hk
    have hks : k ≠ s.post_id := by
      intro hcon
      apply hk
      rw [hcon]
      exact List.mem_map_of_mem SemResult.post_id (List.mem_cons_self _ _)
    have hkr : k ∉ rest.map SemResult.post_id := by
      intro hcon
      apply hk
      rw [List.map_cons]
      exact List.mem_cons_of_mem _ hcon
    rcases hg : dictGet d0 s.post_id with _ | h
    · have hstep : hybridSemPhase d0 (s :: rest) tw sw =
          hybridSemPhase (dictSet d0 s.post_id (semFreshEntry s sw)) rest tw sw := by
        simp only [hybridSemPhase, List.foldl_cons, hg]
      rw [hstep, ih _ tw sw k hkr, dictGet_set_ne d0 _ hks]
    · have hstep : hybridSemPhase d0 (s :: rest) tw sw =
          hybridSemPhase (dictSet d0 s.post_id (semUpdEntry h s tw sw)) rest tw sw := by
        simp only [hybridSemPhase, List.foldl_cons, hg]
      rw [hstep, ih _ tw sw k hkr, dictGet_set_ne d0 _ hks]

theorem hybridSemPhase_get_mem (sems : List SemResult)
    (hnd : (sems.map SemResult.post_id).Nodup) (s : SemResult) (hs : s ∈ sems) :
    ∀ (d0 : List (Nat × HResult)) (tw sw : Flt),
      dictGet (hybridSemPhase d0 sems tw sw) s.post_id =
        match dictGet d0 s.post_id with
        | some h => some (semUpdEntry h s tw sw)
        | none => some (semFreshEntry s sw) := by
  induction sems with
  | nil => cases hs
  | cons t rest ih =>
    have hnd' : (t.post_id :: rest.map SemResult.post_id).Nodup := by
      rw [List.map_cons] at hnd
      exact hnd
    have htr : t.post_id ∉ rest.map SemResult.post_id := (List.nodup_cons.mp hnd').1
    intro d0 tw sw
    rcases List.mem_cons.mp hs with he | hmem
    · subst he
      rcases hg : dictGet d0 s.post_id with _ | h
      · have hstep : hybridSemPhase d0 (s :: rest) tw sw =
            hybridSemPhase (dictSet d0 s.post_id (semFreshEntry s sw)) rest tw sw := by
          simp only [hybridSemPhase, List.foldl_cons, hg]
        rw [hstep, hybridSemPhase_get_not_mem rest _ tw sw s.post_id htr,
          dictGet_set_eq d0 _ _]
      · have hstep : hybridSemPhase d0 (s :: rest) tw sw =
            hybridSemPhase (dictSet d0 s.post_id (semUpdEntry h s tw sw)) rest tw sw := by
          simp only [hybridSemPhase, List.foldl_cons, hg]
        rw [hstep, hybridSemPhase_get_not_mem rest _ tw sw s.post_id htr,
          dictGet_set_eq d0 _ _]
    · have hst : s.post_id ≠ t.post_id := by
        intro hcon
        apply htr
        rw [← hcon]
        exact List.mem_map_of_mem SemResult.post_id hmem
      rcases hg : dictGet d0 t.post_id with _ | h
      · have hstep : hybridSemPhase d0 (t :: rest) tw sw =
            hybridSemPhase (dictSet d0 t.post_id (semFreshEntry t sw)) rest tw sw := by
          simp only [hybridSemPhase, List.foldl_cons, hg]
        rw [hstep, ih (List.nodup_cons.mp hnd').2 hmem _ tw sw,
          dictGet_set_ne d0 _ hst]
      · have hstep : hybridSemPhase d0 (t :: rest) tw sw =
            hybridSemPhase (dictSet d0 t.post_id (semUpdEntry h t tw sw)) rest tw sw := by
          simp only [hybridSemPhase, List.foldl_cons, hg]
        rw [hstep, ih (List.nodup_cons.mp hnd').2 hmem _ tw sw,
          dictGet_set_ne d0 _ hst]

theorem textPhase_get_at (texts : List TResult) (tw : Flt)
    (hT : (texts.map TResult.post_id).Nodup) {i : Nat} {r : TResult}
    (hi : texts[i]? = some r) :
    dictGet (hybridTextPhase texts tw) r.post_id =
      some (textEntry texts.length tw i r) := by
  rw [hybridTextPhase_eq texts tw hT]
  apply dictGet_mem_nodup
  · have hfst : ((texts.enum.map fun ir =>
        (ir.2.post_id, textEntry texts.length tw ir.1 ir.2)).map Prod.fst) =
        texts.map TResult.post_id := by
      rw [List.map_map]
      exact enum_pids texts
    rw [hfst]
    exact hT
  · have hmem : (i, r) ∈ texts.enum := List.mem_enum_iff_getElem?.mpr hi
    exact List.mem_map_of_mem _ hmem

theorem textPhase_get_none (texts : List TResult) (tw : Flt)
    (hT : (texts.map TResult.post_id).Nodup) {pid : Nat}
    (hpid : pid ∉ texts.map TResult.post_id) :
    dictGet (hybridTextPhase texts tw) pid = none := by
  rw [hybridTextPhase_eq texts tw hT]
  apply dictGet_of_forall_ne
  intro kv hkv
  rcases List.mem_map.mp hkv with ⟨ir, hir, rfl⟩
  intro hcon
  apply hpid
  rw [← hcon]
  have hr2 : ir.2 ∈ texts := by
    have := List.mem_enum_iff_getElem?.mp hir
    obtain ⟨hlt, he⟩ := List.getElem?_eq_some.mp this
    rw [← he]
    exact List.getElem_mem hlt
  exact List.mem_map_of_mem TResult.post_id hr2

/-- C2: for an item at rank `i` of the text result list (length `n`) that is
also in the semantic set with similarity `s`, the blended entry has
`text_score = 1 - i/n`, `semantic_score = s`, and
`hybrid_score = (1 - i/n) * text_weight + s * semantic_weight` exactly; an
item in only the text set keeps `semantic_score = 0` and
`hybrid_score = text_score * text_weight`; an item in only the semantic set
gets `text_score = 0` and `hybrid_score = s * semantic_weight`.  (The source
defaults are `text_weight = 0.4`, `semantic_weight = 0.6`; arithmetic is
exact in this model, subsuming the 1e-9 float tolerance of the claim.) -/
theorem C2_hybrid_additivity (texts : List TResult) (sems : List SemResult)
    (tw sw : Flt) (hT : (texts.map TResult.post_id).Nodup)
    (hS : (sems.map SemResult.post_id).Nodup) :
    (∀ i r s, texts[i]? = some r → s ∈ sems → s.post_id = r.post_id →
      dictGet (hybridCombine texts sems tw sw) r.post_id =
        some (semUpdEntry (textEntry texts.length tw i r) s tw sw) ∧
      (semUpdEntry (textEntry texts.length tw i r) s tw sw).text_score =
        1 - Flt.ofNat i / Flt.ofNat texts.length ∧
      (semUpdEntry (textEntry texts.length tw i r) s tw sw).semantic_score =
        s.similarity_score ∧
      (semUpdEntry (textEntry texts.length tw i r) s tw sw).hybrid_score =
        (1 - Flt.ofNat i / Flt.ofNat texts.length) * tw +
          s.similarity_score * sw) ∧
    (∀ i r, texts[i]? = some r → r.post_id ∉ sems.map SemResult.post_id →
      dictGet (hybridCombine texts sems tw sw) r.post_id =
        some (textEntry texts.length tw i r) ∧
      (textEntry texts.length tw i r).semantic_score = 0 ∧
      (textEntry texts.length tw i r).hybrid_score =
        (1 - Flt.ofNat i / Flt.ofNat texts.length) * tw) ∧
    (∀ s ∈ sems, s.post_id ∉ texts.map TResult.post_id →
      dictGet (hybridCombine texts sems tw sw) s.post_id =
        some (semFreshEntry s sw) ∧
      (semFreshEntry s sw).text_score = 0 ∧
      (semFreshEntry s sw).hybrid_score = s.similarity_score * sw) := by
  refine ⟨?_, ?_, ?_⟩
  · intro i r s hi hs hsp
    have hg0 := textPhase_get_at texts tw hT hi
    have hsem := hybridSemPhase_get_mem sems hS s hs (hybridTextPhase texts tw) tw sw
    rw [hsp] at hsem
    rw [hg0] at hsem
    exact ⟨hsem, rfl, rfl, rfl⟩
  · intro i r hi hnot
    have hg0 := textPhase_get_at texts tw hT hi
    have hnm := hybridSemPhase_get_not_mem sems (hybridTextPhase texts tw)
      tw sw r.post_id hnot
    exact ⟨hnm.trans hg0, rfl, rfl⟩
  · intro s hs hnot
    have hg0 := textPhase_get_none texts tw hT hnot
    have hsem := hybridSemPhase_get_mem sems hS s hs (hybridTextPhase texts tw) tw sw
    rw [hg0] at hsem
    exact ⟨hsem, rfl, rfl⟩

theorem C2_witness :
    (([tRes1].map TResult.post_id).Nodup ∧
      ([semRes1, semRes2].map SemResult.post_id).Nodup) ∧
    (dictGet (hybridCombine [tRes1] [semRes1, semRes2] (fl 4 10) (fl 6 10)) 1 =
        some (semUpdEntry (textEntry 1 (fl 4 10) 0 tRes1) semRes1
          (fl 4 10) (fl 6 10)) ∧
      (semUpdEntry (textEntry 1 (fl 4 10) 0 tRes1) semRes1
          (fl 4 10) (fl 6 10)).hybrid_score =
        (1 - Flt.ofNat 0 / Flt.ofNat 1) * fl 4 10 +
          semRes1.similarity_score * fl 6 10) ∧
    (dictGet (hybridCombine [tRes1] [semRes1, semRes2] (fl 4 10) (fl 6 10)) 7 =
        some (semFreshEntry semRes2 (fl 6 10)) ∧
      (semFreshEntry semRes2 (fl 6 10)).text_score = 0 ∧
      (semFreshEntry semRes2 (fl 6 10)).hybrid_score =
        semRes2.similarity_score * fl 6 10) := by
  have hmain := C2_hybrid_additivity [tRes1] [semRes1, semRes2]
    (fl 4 10) (fl 6 10) (by decide) (by decide)
  refine ⟨⟨by decide, by decide⟩, ?_, ?_⟩
  · have h1 := hmain.1 0 tRes1 semRes1 (by decide) (by decide) (by decide)
    exact ⟨h1.1, h1.2.2.2⟩
  · exact hmain.2.2 semRes2 (by decide) (by decide)

end SpiderWeb
